import Mathlib

/-!
Verification of the chunked audio-enhancement pipeline
(`src/AudioEnhancer.Core/Scripts/enhance_track.py`,
`vasr_server.py`, `vasr_wrapper.py`).

Samples are modelled as integers: the segmentation, length-coercion,
concatenation and channel-recombination logic under verification never
inspects a sample's numeric value (zero-padding excepted), so the choice
of carrier type is irrelevant to the claims.  Python float arithmetic on
durations is modelled by exact natural-number arithmetic
(`int(x / sr * 48000)` becomes `x * 48000 / sr` with Nat floor division).
-/

namespace AudioEnhancer

/-- Segment loop of `process_channel_data`:
`for i in range(0, total_samples, chunk_samples): chunk = data_channel[i:min(i+chunk_samples, total_samples)]`.
Each iteration takes the next `chunk` samples and recurses on the rest.
The recursion is driven by a fuel argument (initially the buffer length);
for `chunk > 0` the fuel never runs out before the data does, so the fuel
formulation agrees with the Python loop (which would raise on step `0`). -/
def chunkSegmentsAux (chunk : Nat) : Nat → List Int → List (List Int)
  | 0, _ => []
  | _, [] => []
  | fuel + 1, data => data.take chunk :: chunkSegmentsAux chunk fuel (data.drop chunk)

/-- All segments of one channel buffer, in loop order. -/
def chunkSegments (chunk : Nat) (data : List Int) : List (List Int) :=
  chunkSegmentsAux chunk data.length data

/-- `TARGET_SR = 48000` in `process_channel_data`. -/
def TARGET_SR : Nat := 48000

/-- `expected_output_samples = int(len(chunk) / sr * TARGET_SR)`: the float
computation is modelled exactly, as the floor of `len * 48000 / sr`. -/
def expectedOutputSamples (chunkLen sr : Nat) : Nat :=
  chunkLen * TARGET_SR / sr

/-- Length correction of one segment result in `process_channel_data`:
`if len(res) > expected: res = res[:expected]`
`elif len(res) < expected: res = np.pad(res, (0, missing))` (zero padding). -/
def coerceLength (res : List Int) (expected : Nat) : List Int :=
  if expected < res.length then res.take expected
  else if res.length < expected then res ++ List.replicate (expected - res.length) 0
  else res

/-- `np.concatenate(parts)`: concatenates 1-D arrays, but raises
`ValueError` when the list of arrays is empty. -/
def npConcatenate (parts : List (List Int)) : Except String (List Int) :=
  match parts with
  | [] => Except.error "need at least one array to concatenate"
  | _ => Except.ok parts.flatten

/-- Whole `process_channel_data` data path for one channel: segment the
buffer, run the (abstract) enhancement capability on each segment, coerce
each result to its expected length, and concatenate.  The enhancement call
`super_resolution(...)` is a black box, modelled as an arbitrary function
from segment to raw result buffer. -/
def processChannelData (enhanceFn : List Int → List Int) (data : List Int)
    (chunk sr : Nat) : Except String (List Int) :=
  npConcatenate ((chunkSegments chunk data).map
    (fun c => coerceLength (enhanceFn c) (expectedOutputSamples c.length sr)))

/-- Stereo recombination in `enhance`:
`min_len = min(len(l), len(r)); l = l[:min_len]; r = r[:min_len];`
`np.column_stack((l, r))` — pairs of simultaneous samples. -/
def recombineStereo (l r : List Int) : List (Int × Int) :=
  (l.take (min l.length r.length)).zip (r.take (min l.length r.length))

/-- What ends up at the requested output path in the stereo fallback of
`run_audiosr_cli`. -/
inductive OutContent where
  /-- `merged.wav`: ffmpeg merge of the two channel files; each flag records
  whether that channel file was an enhanced product or the raw split. -/
  | merged (leftEnhanced rightEnhanced : Bool)
  /-- a byte-identical copy of the original input file -/
  | copyOfInput
deriving DecidableEq

/-- Environment of the stereo split/enhance/merge fallback (lines 266-340 of
`vasr_server.py`): the outcome of each external effect, abstracted. -/
structure StereoEnv where
  /-- an exception was raised while running the ffmpeg split commands -/
  splitExc : Bool
  /-- first ffmpeg split (`-map_channel`) exited with code 0 -/
  split1Ok : Bool
  /-- second ffmpeg split (`channelsplit` filter) exited with code 0 -/
  split2Ok : Bool
  /-- `_run_candidates_and_find` located a produced file for the left channel -/
  prodLeft : Bool
  /-- `_run_candidates_and_find` located a produced file for the right channel -/
  prodRight : Bool
  /-- an exception was raised inside the merge block -/
  mergeExc : Bool
  /-- ffmpeg `amerge` exited 0 and `merged.wav` exists -/
  mergeOk : Bool
  /-- `shutil.move(merged, output_path)` succeeded -/
  moveOk : Bool
  /-- fallback `shutil.copyfile(merged, output_path)` succeeded -/
  copyMergedOk : Bool
  /-- `shutil.copyfile(input_path, output_path)` succeeded -/
  copyInputOk : Bool
deriving DecidableEq

/-- Control flow of the stereo fallback of `run_audiosr_cli`, entered when
ffprobe reports `in_channels >= 2`.  Returns the function's return code and
what (if anything) was produced at the output path.  Mirrors the source:
split failure returns rc 1 without touching the output; per-channel
enhancement failure silently falls back to the raw split channel
(`left_out = prod_l or left`); merge success moves (or copies) the merged
file; merge failure or exception copies the original input, ignoring copy
errors. -/
def stereoFallback (e : StereoEnv) : Int × Option OutContent :=
  if e.splitExc then (1, none)
  else if !e.split1Ok && !e.split2Ok then (1, none)
  else if e.mergeExc then (1, if e.copyInputOk then some OutContent.copyOfInput else none)
  else if e.mergeOk then
    (0, if e.moveOk || e.copyMergedOk
        then some (OutContent.merged e.prodLeft e.prodRight) else none)
  else (1, if e.copyInputOk then some OutContent.copyOfInput else none)

/-- Outcome of `subprocess.run` for one candidate command in
`_run_candidates_and_find`. -/
inductive CmdOutcome where
  /-- `FileNotFoundError`: the binary does not exist (`last_rc = 127`) -/
  | notFound
  /-- any other exception while launching (`last_rc = 1`) -/
  | excRun
  /-- the subprocess completed with this return code -/
  | ran (rc : Int)
deriving DecidableEq

/-- One candidate attempt in `_run_candidates_and_find`: the subprocess
outcome together with the state of the filesystem probes made right after
it (`os.path.exists(output_path)` and `_find_produced_in_dir(save_dir)`). -/
structure Attempt where
  outcome : CmdOutcome
  outputExists : Bool
  found : Option String
deriving DecidableEq

/-- The candidate loop of `_run_candidates_and_find` (vasr_server.py,
lines 130-216), abstracted over the per-candidate outcomes; captured stdio
is dropped as the claims do not mention it.  `lastRc` carries Python's
`last_rc` across iterations (initially 1); the final `return last_rc, ...,
None` uses its last value. -/
def runCandidatesAux (outputPath : String) : List Attempt → Int → Int × Option String
  | [], lastRc => (lastRc, none)
  | a :: rest, _ =>
    match a.outcome with
    | CmdOutcome.notFound => runCandidatesAux outputPath rest 127
    | CmdOutcome.excRun => runCandidatesAux outputPath rest 1
    | CmdOutcome.ran rc =>
      if rc ≠ 0 then
        if a.outputExists then (0, some outputPath)
        else
          match a.found with
          | some f => (0, some f)
          | none => runCandidatesAux outputPath rest rc
      else
        if a.outputExists then (0, some outputPath)
        else
          match a.found with
          | some f => (0, some f)
          | none => (0, none)

/-- Entry point of the candidate loop: `last_rc` starts at 1. -/
def runCandidates (outputPath : String) (attempts : List Attempt) : Int × Option String :=
  runCandidatesAux outputPath attempts 1

/-- A file as seen by `_find_produced_in_dir`: its name (full filename, as
`f.name` in Python), its extension (`f.suffix`) and its modification time. -/
structure FSFile where
  name : List Char
  ext : List Char
  mtime : Nat
deriving DecidableEq

/-- `AUDIO_EXTS = [".wav", ".flac", ".mp3", ".m4a", ".ogg"]`. -/
def AUDIO_EXTS : List (List Char) :=
  [".wav".toList, ".flac".toList, ".mp3".toList, ".m4a".toList, ".ogg".toList]

/-- `f.suffix.lower() in AUDIO_EXTS`. -/
def isAudioFile (f : FSFile) : Bool :=
  AUDIO_EXTS.contains (f.ext.map Char.toLower)

/-- `s` starts with `pat` (character lists). -/
def startsWithChars : List Char → List Char → Bool
  | _, [] => true
  | [], _ :: _ => false
  | b :: bs, a :: as => a == b && startsWithChars bs as

/-- Python's `pat in s` substring test, on character lists. -/
def containsChars (pat : List Char) : List Char → Bool
  | [] => startsWithChars [] pat
  | c :: rest => startsWithChars (c :: rest) pat || containsChars pat rest

/-- Marker test of `_find_produced_in_dir`:
`("audiosr" in f.name.lower() and "processed" in f.name.lower()) or`
`"_audiosr_processed_" in f.name.lower()`. -/
def markerMatch (f : FSFile) : Bool :=
  let n := f.name.map Char.toLower
  (containsChars "audiosr".toList n && containsChars "processed".toList n)
    || containsChars "_audiosr_processed_".toList n

/-- A directory listing as walked by `_find_produced_in_dir`: regular files
of the directory itself, and the files of each immediate subdirectory. -/
structure DirListing where
  files : List FSFile
  subdirFiles : List (List FSFile)
deriving DecidableEq

/-- The `files` list built by `_find_produced_in_dir`: audio files of the
directory, then the audio files of each immediate subdirectory. -/
def gatherAudioFiles (d : DirListing) : List FSFile :=
  d.files.filter isAudioFile
    ++ (d.subdirFiles.map (fun sub => sub.filter isAudioFile)).flatten

/-- `max(candidates, key=lambda f: f.stat().st_mtime)`: Python's `max`
returns the first element attaining the maximal key, so a later element
replaces the current best only when strictly newer. -/
def maxByMtime : List FSFile → Option FSFile
  | [] => none
  | f :: rest =>
    some (rest.foldl (fun g h => if g.mtime < h.mtime then h else g) f)

/-- `_find_produced_in_dir` (vasr_server.py, lines 68-94): no audio file at
all → `None`; otherwise the newest marker-matching file when any exists,
else the newest audio file. -/
def findProducedInDir (d : DirListing) : Option FSFile :=
  let files := gatherAudioFiles d
  if files.isEmpty then none
  else
    let markerMatches := files.filter markerMatch
    if markerMatches.isEmpty then maxByMtime files
    else maxByMtime markerMatches

/-- One JSON response line: `{"rc": ..., "stdout": ..., "stderr": ...}`. -/
structure Response where
  rc : Int
  stdout : String
  stderr : String
deriving DecidableEq

/-- The filesystem, abstracted as an association list from paths to file
contents (enough to state "no side effects on the filesystem"). -/
abbrev FileSys := List (String × String)

/-- Python truthiness of `req.get("input")`: `None` and `""` are falsy. -/
def pyTruthy : Option String → Bool
  | none => false
  | some s => !(s == "")

/-- Dispatch step of `_handle_conn` in `vasr_server.py` after a successful
JSON parse: missing/empty fields → rc 5 and nothing touched; `--always-copy`
→ copy (rc 0) or rc 7 on copy failure; otherwise `run_audiosr_cli`, whose
result triple and filesystem effect are abstract parameters. -/
def serverDispatch (alwaysCopy copyOk : Bool) (copyErrMsg : String)
    (run : Int × String × String) (copyEff runEff : FileSys → FileSys)
    (inp out : Option String) (fs : FileSys) : Response × FileSys :=
  if !(pyTruthy inp && pyTruthy out) then (⟨5, "", "invalid request"⟩, fs)
  else if alwaysCopy then
    if copyOk then (⟨0, "copied", ""⟩, copyEff fs)
    else (⟨7, "", copyErrMsg⟩, fs)
  else (⟨run.1, run.2.1, run.2.2⟩, runEff fs)

/-- `_handle_conn` of `vasr_server.py` from the point where a request line
has been received: a JSON parse failure (or any exception while reading the
fields) yields rc 6; otherwise dispatch. -/
def handleConn (alwaysCopy copyOk : Bool) (copyErrMsg : String)
    (run : Int × String × String) (copyEff runEff : FileSys → FileSys)
    (parsed : Except String (Option String × Option String))
    (fs : FileSys) : Response × FileSys :=
  match parsed with
  | Except.error msg => (⟨6, "", msg⟩, fs)
  | Except.ok (inp, out) =>
    serverDispatch alwaysCopy copyOk copyErrMsg run copyEff runEff inp out fs

/-- `process_enhance` of `vasr_wrapper.py`: enhancement disabled, returns
the fixed triple and performs no filesystem operation. -/
def process_enhance (_inp _out : String) : Int × String × String :=
  (9, "", "enhancement disabled: audiosr removed")

/-- `handle_client` of `vasr_wrapper.py` from the point where a request line
has been received, with the filesystem threaded through to make the absence
of writes explicit. -/
def wrapperHandleClient (parsed : Except String (Option String × Option String))
    (fs : FileSys) : Response × FileSys :=
  match parsed with
  | Except.error msg => (⟨6, "", msg⟩, fs)
  | Except.ok (inp, out) =>
    if !(pyTruthy inp && pyTruthy out) then (⟨5, "", "invalid request"⟩, fs)
    else
      let r := process_enhance (inp.getD "") (out.getD "")
      (⟨r.1, r.2.1, r.2.2⟩, fs)

/-- Concrete stereo-fallback environment: split succeeded on the first
ffmpeg form, the left channel was enhanced, the right fell back to the raw
split, and the merge and move succeeded. -/
def c4WitnessEnv : StereoEnv :=
  ⟨false, true, false, true, false, false, true, true, true, true⟩

/-- Example marker-matching audio file, deliberately old. -/
def exMarkerFile : FSFile := ⟨"mix_audiosr_processed_1.wav".toList, ".wav".toList, 10⟩

/-- Example non-matching audio file, much more recently modified. -/
def exNewerFile : FSFile := ⟨"other.wav".toList, ".wav".toList, 999⟩

/-- Example directory: the newer non-matching file is listed first. -/
def exDir : DirListing := ⟨[exNewerFile, exMarkerFile], []⟩

/-- Observable events of one segment iteration of `process_channel_data`. -/
inductive SegEvent where
  /-- `cleanup_memory()`: `gc.collect()` plus CUDA cache release -/
  | reclaim
  /-- `sf.write(temp_in, chunk, sr)` -/
  | writeTemp (name : List Char)
  /-- the `super_resolution(...)` call -/
  | invokeModel
  /-- `processed_parts.append(res)` -/
  | appendResult
  /-- `os.remove(temp_in)` -/
  | removeTemp (name : List Char)
deriving DecidableEq

/-- Decimal digit character: `Char.ofNat (48 + d)`. -/
def natDigitChar (d : Nat) : Char := Char.ofNat (48 + d)

/-- Decimal rendering of a natural number (most significant digit first),
fuel-driven so it computes by kernel reduction. -/
def natDecimalAux : Nat → Nat → List Char
  | 0, _ => []
  | fuel + 1, n =>
    if n < 10 then [natDigitChar n]
    else natDecimalAux fuel (n / 10) ++ [natDigitChar (n % 10)]

/-- Python's `str(i)` for a natural number. -/
def natDecimal (n : Nat) : List Char := natDecimalAux (n + 1) n

/-- Reads a decimal digit string back to its value (used to show that
`natDecimal` is injective). -/
def unDecimal (l : List Char) : Nat :=
  l.foldl (fun acc c => acc * 10 + (c.toNat - 48)) 0

/-- `temp_in = os.path.join(tempfile.gettempdir(), f"chunk_{channel_name}_{i}.wav")`,
modelled as the filename (the temp directory is fixed per process). -/
def tempName (channel : List Char) (i : Nat) : List Char :=
  "chunk_".toList ++ channel ++ "_".toList ++ natDecimal i ++ ".wav".toList

/-- One segment iteration of `process_channel_data`, as the sequence of
side-effect events it performs plus its outcome, for both exit paths:
`cleanup_memory()` (before), `sf.write(temp_in, ...)`, the model invocation
inside `try:`, then (success only) `processed_parts.append(res)`, and the
`finally:` block — `os.remove(temp_in)` and `cleanup_memory()` (after) —
which runs whether or not `super_resolution` raised. -/
def segmentStep (channel : List Char) (i : Nat) (raises : Bool) :
    List SegEvent × Except Unit Unit :=
  let pre := [SegEvent.reclaim, SegEvent.writeTemp (tempName channel i)]
  let body : List SegEvent × Except Unit Unit :=
    if raises then ([SegEvent.invokeModel], Except.error ())
    else ([SegEvent.invokeModel, SegEvent.appendResult], Except.ok ())
  let fin := [SegEvent.removeTemp (tempName channel i), SegEvent.reclaim]
  (pre ++ body.1 ++ fin, body.2)

lemma chunkSegmentsAux_nil (chunk fuel : Nat) : chunkSegmentsAux chunk fuel [] = [] := by
  cases fuel <;> rfl

/-- Fuel irrelevance: any two fuels at least the buffer length compute the
same segment list (for positive chunk size). -/
lemma chunkSegmentsAux_fuel (chunk : Nat) (hc : 0 < chunk) :
    ∀ fuel₁ fuel₂ data, (data : List Int).length ≤ fuel₁ → data.length ≤ fuel₂ →
      chunkSegmentsAux chunk fuel₁ data = chunkSegmentsAux chunk fuel₂ data := by
  intro fuel₁
  induction fuel₁ with
  | zero =>
    intro fuel₂ data hlen₁ _
    have : data = [] := List.length_eq_zero.mp (Nat.le_zero.mp hlen₁)
    subst this
    rw [chunkSegmentsAux_nil, chunkSegmentsAux_nil]
  | succ f ih =>
    intro fuel₂ data hlen₁ hlen₂
    cases data with
    | nil => rw [chunkSegmentsAux_nil, chunkSegmentsAux_nil]
    | cons x xs =>
      cases fuel₂ with
      | zero => simp at hlen₂
      | succ f₂ =>
        show (x :: xs).take chunk :: chunkSegmentsAux chunk f ((x :: xs).drop chunk)
            = (x :: xs).take chunk :: chunkSegmentsAux chunk f₂ ((x :: xs).drop chunk)
        congr 1
        apply ih
        · rw [List.length_drop]
          simp only [List.length_cons] at hlen₁ ⊢
          omega
        · rw [List.length_drop]
          simp only [List.length_cons] at hlen₂ ⊢
          omega

lemma chunkSegments_nil (chunk : Nat) : chunkSegments chunk [] = [] := rfl

/-- Unfolding: a non-empty buffer yields its first `chunk` samples as first
segment, followed by the segments of the rest. -/
lemma chunkSegments_cons (chunk : Nat) (hc : 0 < chunk) (data : List Int) (hd : data ≠ []) :
    chunkSegments chunk data = data.take chunk :: chunkSegments chunk (data.drop chunk) := by
  cases data with
  | nil => exact absurd rfl hd
  | cons x xs =>
    show chunkSegmentsAux chunk (xs.length + 1) (x :: xs) = _
    show (x :: xs).take chunk :: chunkSegmentsAux chunk xs.length ((x :: xs).drop chunk) = _
    congr 1
    apply chunkSegmentsAux_fuel chunk hc
    · rw [List.length_drop]
      simp only [List.length_cons]
      omega
    · exact Nat.le_refl _

/-- Concatenating all segments restores the original buffer: the segments
partition the buffer in order, with no overlap and no reordering. -/
lemma chunkSegments_flatten (chunk : Nat) (hc : 0 < chunk) (data : List Int) :
    (chunkSegments chunk data).flatten = data := by
  cases data with
  | nil => rw [chunkSegments_nil]; rfl
  | cons x xs =>
    rw [chunkSegments_cons chunk hc _ (by simp), List.flatten_cons,
      chunkSegments_flatten chunk hc ((x :: xs).drop chunk)]
    exact List.take_append_drop chunk (x :: xs)
termination_by data.length
decreasing_by
  simp only [List.length_drop, List.length_cons]
  omega

/-- The number of segments is `⌈N / chunk⌉ = (N + chunk - 1) / chunk`. -/
lemma chunkSegments_length (chunk : Nat) (hc : 0 < chunk) (data : List Int) :
    (chunkSegments chunk data).length = (data.length + chunk - 1) / chunk := by
  cases data with
  | nil =>
    rw [chunkSegments_nil]
    simp only [List.length_nil, Nat.zero_add]
    rw [Nat.div_eq_of_lt (by omega)]
  | cons x xs =>
    rw [chunkSegments_cons chunk hc _ (by simp), List.length_cons,
      chunkSegments_length chunk hc ((x :: xs).drop chunk), List.length_drop]
    rcases Nat.lt_or_ge xs.length chunk with hlt | hge
    · have e0 : (x :: xs).length - chunk = 0 := by
        simp only [List.length_cons]; omega
      have e1 : (x :: xs).length + chunk - 1 = ((x :: xs).length - 1) + chunk := by
        simp only [List.length_cons]; omega
      rw [e0, e1, Nat.add_div_right _ hc, Nat.div_eq_of_lt (by omega),
        Nat.div_eq_of_lt (by simp only [List.length_cons]; omega)]
    · have e0 : (x :: xs).length - chunk + chunk - 1 = ((x :: xs).length - 1 - chunk) + chunk := by
        simp only [List.length_cons]; omega
      have e1 : (x :: xs).length + chunk - 1 = ((x :: xs).length - 1) + chunk := by
        simp only [List.length_cons]; omega
      rw [e0, e1, Nat.add_div_right _ hc, Nat.add_div_right _ hc]
      congr 1
      simp only [List.length_cons, Nat.add_sub_cancel]
      conv_rhs => rw [Nat.div_eq]
      rw [if_pos ⟨hc, hge⟩]
termination_by data.length
decreasing_by
  simp only [List.length_drop, List.length_cons]
  omega

/-- Every segment except possibly the last has exactly `chunk` samples. -/
lemma chunkSegments_dropLast (chunk : Nat) (hc : 0 < chunk) (data : List Int) :
    ∀ s ∈ (chunkSegments chunk data).dropLast, s.length = chunk := by
  cases data with
  | nil => rw [chunkSegments_nil]; intro s hs; simp at hs
  | cons x xs =>
    rw [chunkSegments_cons chunk hc _ (by simp)]
    rcases Nat.lt_or_ge xs.length chunk with hlt | hge
    · have hdrop : (x :: xs).drop chunk = [] := by
        apply List.drop_eq_nil_of_le
        simp only [List.length_cons]; omega
      rw [hdrop, chunkSegments_nil]
      intro s hs
      simp at hs
    · have hne : (x :: xs).drop chunk ≠ [] := by
        intro h
        have := List.drop_eq_nil_iff.mp h
        simp only [List.length_cons] at this
        omega
      have hshape := chunkSegments_cons chunk hc ((x :: xs).drop chunk) hne
      have ihtail := chunkSegments_dropLast chunk hc ((x :: xs).drop chunk)
      intro s hs
      rw [hshape, List.dropLast_cons₂, ← hshape] at hs
      rcases List.mem_cons.mp hs with h | h
      · subst h
        rw [List.length_take]
        simp only [List.length_cons]
        omega
      · exact ihtail s h
termination_by data.length
decreasing_by
  simp only [List.length_drop, List.length_cons]
  omega

/-- Last-segment length for a non-empty buffer, cons form (recursion helper). -/
lemma chunkSegments_getLast_cons (chunk : Nat) (hc : 0 < chunk) (x : Int) (xs : List Int) :
    ∃ lastSeg, (chunkSegments chunk (x :: xs)).getLast? = some lastSeg ∧
      lastSeg.length =
        if (x :: xs).length % chunk = 0 then chunk else (x :: xs).length % chunk := by
  rw [chunkSegments_cons chunk hc _ (by simp)]
  rcases Nat.lt_or_ge xs.length chunk with hlt | hge
  · have hdrop : (x :: xs).drop chunk = [] := by
      apply List.drop_eq_nil_of_le
      simp only [List.length_cons]; omega
    rw [hdrop, chunkSegments_nil]
    refine ⟨(x :: xs).take chunk, rfl, ?_⟩
    rw [List.length_take]
    simp only [List.length_cons]
    rcases Nat.lt_or_ge xs.length (chunk - 1) with hlt2 | hge2
    · rw [Nat.mod_eq_of_lt (by omega)]
      rw [if_neg (by omega)]
      omega
    · have hEq : xs.length + 1 = chunk := by omega
      rw [hEq]
      simp [Nat.mod_self]
  · rcases hdl : (x :: xs).drop chunk with _ | ⟨y, ys⟩
    · exfalso
      have := List.drop_eq_nil_iff.mp hdl
      simp only [List.length_cons] at this
      omega
    · obtain ⟨lastSeg, hlast, hlen⟩ := chunkSegments_getLast_cons chunk hc y ys
      refine ⟨lastSeg, List.mem_getLast?_cons hlast, ?_⟩
      rw [hlen]
      have hlendrop : (y :: ys).length = (x :: xs).length - chunk := by
        rw [← hdl, List.length_drop]
      rw [hlendrop]
      have hmod : ((x :: xs).length - chunk) % chunk = (x :: xs).length % chunk := by
        conv_rhs => rw [Nat.mod_eq_sub_mod (by simp only [List.length_cons]; omega)]
      rw [hmod]
termination_by xs.length
decreasing_by
  have hlendrop : (y :: ys).length = (x :: xs).length - chunk := by
    rw [← hdl, List.length_drop]
  simp only [List.length_cons] at hlendrop
  omega

/-- The last segment's length is `N % chunk`, unless that is zero, in which
case it is `chunk`. -/
lemma chunkSegments_getLast (chunk : Nat) (hc : 0 < chunk) (data : List Int) (hd : data ≠ []) :
    ∃ lastSeg, (chunkSegments chunk data).getLast? = some lastSeg ∧
      lastSeg.length = if data.length % chunk = 0 then chunk else data.length % chunk := by
  cases data with
  | nil => exact absurd rfl hd
  | cons x xs => exact chunkSegments_getLast_cons chunk hc x xs

/-- A buffer no longer than the chunk size yields a single segment: the
whole buffer. -/
lemma chunkSegments_single (chunk : Nat) (data : List Int) (hd : data ≠ [])
    (hle : data.length ≤ chunk) : chunkSegments chunk data = [data] := by
  have hc : 0 < chunk := lt_of_lt_of_le (List.length_pos.mpr hd) hle
  rw [chunkSegments_cons chunk hc data hd, List.take_of_length_le hle,
    List.drop_eq_nil_of_le hle, chunkSegments_nil]

/-- Unified form of the length correction: truncation and zero padding are
one equation (`take` is the identity when the result is short, the padding
is empty when it is long). -/
lemma coerceLength_eq (res : List Int) (e : Nat) :
    coerceLength res e = res.take e ++ List.replicate (e - res.length) 0 := by
  unfold coerceLength
  rcases lt_trichotomy e res.length with h | h | h
  · rw [if_pos h, Nat.sub_eq_zero_of_le (Nat.le_of_lt h), List.replicate_zero,
      List.append_nil]
  · subst h
    rw [if_neg (lt_irrefl _), if_neg (lt_irrefl _), List.take_length,
      Nat.sub_self, List.replicate_zero, List.append_nil]
  · rw [if_neg (by omega), if_pos h, List.take_of_length_le (Nat.le_of_lt h)]

/-- The corrected result always has exactly the expected length. -/
lemma coerceLength_length (res : List Int) (e : Nat) :
    (coerceLength res e).length = e := by
  rw [coerceLength_eq, List.length_append, List.length_take, List.length_replicate]
  omega

/-- The fold underlying `maxByMtime` returns an element of the list that is
at least as new as the seed and every list element. -/
lemma maxByMtime_foldl_spec (rest : List FSFile) :
    ∀ f : FSFile,
      rest.foldl (fun g h => if g.mtime < h.mtime then h else g) f ∈ f :: rest ∧
      f.mtime ≤ (rest.foldl (fun g h => if g.mtime < h.mtime then h else g) f).mtime ∧
      ∀ h ∈ rest,
        h.mtime ≤ (rest.foldl (fun g h => if g.mtime < h.mtime then h else g) f).mtime := by
  induction rest with
  | nil => intro f; exact ⟨List.mem_singleton.mpr rfl, Nat.le_refl _, by intro h hh; simp at hh⟩
  | cons a t ih =>
    intro f
    simp only [List.foldl_cons]
    by_cases hm : f.mtime < a.mtime
    · rw [if_pos hm]
      obtain ⟨hmem, hseed, hall⟩ := ih a
      refine ⟨?_, Nat.le_trans (Nat.le_of_lt hm) hseed, ?_⟩
      · rcases List.mem_cons.mp hmem with h | h
        · rw [h]; exact List.mem_cons_of_mem _ (List.mem_cons_self _ _)
        · exact List.mem_cons_of_mem _ (List.mem_cons_of_mem _ h)
      · intro x hx
        rcases List.mem_cons.mp hx with h1 | h1
        · rw [h1]; exact hseed
        · exact hall x h1
    · rw [if_neg hm]
      obtain ⟨hmem, hseed, hall⟩ := ih f
      refine ⟨?_, hseed, ?_⟩
      · rcases List.mem_cons.mp hmem with h | h
        · rw [h]; exact List.mem_cons_self _ _
        · exact List.mem_cons_of_mem _ (List.mem_cons_of_mem _ h)
      · intro x hx
        rcases List.mem_cons.mp hx with h1 | h1
        · rw [h1]; exact Nat.le_trans (Nat.le_of_not_lt hm) hseed
        · exact hall x h1

/-- `maxByMtime` of a non-empty list is a member with maximal mtime. -/
lemma maxByMtime_spec (l : List FSFile) (hl : l ≠ []) :
    ∃ g, maxByMtime l = some g ∧ g ∈ l ∧ ∀ h ∈ l, h.mtime ≤ g.mtime := by
  cases l with
  | nil => exact absurd rfl hl
  | cons f rest =>
    obtain ⟨hmem, hseed, hall⟩ := maxByMtime_foldl_spec rest f
    refine ⟨_, rfl, hmem, ?_⟩
    intro h hh
    rcases List.mem_cons.mp hh with h1 | h1
    · subst h1; exact hseed
    · exact hall h h1

/-- Fuel irrelevance for the decimal renderer. -/
lemma natDecimalAux_fuel :
    ∀ fuel₁ fuel₂ n, n < fuel₁ → n < fuel₂ →
      natDecimalAux fuel₁ n = natDecimalAux fuel₂ n := by
  intro fuel₁
  induction fuel₁ with
  | zero => intro fuel₂ n h₁ _; omega
  | succ f ih =>
    intro fuel₂ n h₁ h₂
    cases fuel₂ with
    | zero => omega
    | succ f₂ =>
      show (if n < 10 then _ else _) = (if n < 10 then _ else _)
      by_cases hn : n < 10
      · rw [if_pos hn, if_pos hn]
      · rw [if_neg hn, if_neg hn]
        have hdiv : n / 10 < n := Nat.div_lt_self (by omega) (by omega)
        rw [ih f₂ (n / 10) (by omega) (by omega)]

lemma natDecimal_lt10 (n : Nat) (h : n < 10) : natDecimal n = [natDigitChar n] := by
  show (if n < 10 then _ else _) = _
  rw [if_pos h]

lemma natDecimal_ge10 (n : Nat) (h : 10 ≤ n) :
    natDecimal n = natDecimal (n / 10) ++ [natDigitChar (n % 10)] := by
  show (if n < 10 then _ else _) = _
  rw [if_neg (by omega)]
  have hdiv : n / 10 < n := Nat.div_lt_self (by omega) (by omega)
  rw [natDecimalAux_fuel n (n / 10 + 1) (n / 10) (by omega) (by omega)]
  rfl

lemma natDigitChar_toNat (d : Nat) (h : d < 10) : (natDigitChar d).toNat = 48 + d := by
  interval_cases d <;> decide

lemma unDecimal_append_digit (l : List Char) (c : Char) :
    unDecimal (l ++ [c]) = unDecimal l * 10 + (c.toNat - 48) := by
  unfold unDecimal
  rw [List.foldl_append]
  rfl

/-- The decimal rendering is read back to the number it came from. -/
lemma unDecimal_natDecimal (n : Nat) : unDecimal (natDecimal n) = n := by
  rcases Nat.lt_or_ge n 10 with h | h
  · rw [natDecimal_lt10 n h]
    show 0 * 10 + ((natDigitChar n).toNat - 48) = n
    rw [natDigitChar_toNat n h]
    omega
  · rw [natDecimal_ge10 n h, unDecimal_append_digit,
      unDecimal_natDecimal (n / 10), natDigitChar_toNat _ (Nat.mod_lt n (by omega))]
    have := Nat.div_add_mod n 10
    omega
termination_by n
decreasing_by
  exact Nat.div_lt_self (by omega) (by omega)

/-- `str(i)` is injective. -/
lemma natDecimal_inj {m n : Nat} (h : natDecimal m = natDecimal n) : m = n := by
  have := congrArg unDecimal h
  rwa [unDecimal_natDecimal, unDecimal_natDecimal] at this

/-- Splitting at the first underscore is unambiguous when neither prefix
part contains an underscore. -/
lemma underscore_split :
    ∀ c c' : List Char, ('_' ∉ c) → ('_' ∉ c') → ∀ w w' : List Char,
      c ++ '_' :: w = c' ++ '_' :: w' → c = c' ∧ w = w' := by
  intro c
  induction c with
  | nil =>
    intro c' _ h' w w' heq
    cases c' with
    | nil => simpa using heq
    | cons a as =>
      exfalso
      simp only [List.nil_append, List.cons_append, List.cons.injEq] at heq
      exact h' (heq.1 ▸ List.mem_cons_self _ _)
  | cons b bs ih =>
    intro c' h h' w w' heq
    cases c' with
    | nil =>
      exfalso
      simp only [List.nil_append, List.cons_append, List.cons.injEq] at heq
      exact h (heq.1 ▸ List.mem_cons_self _ _)
    | cons a as =>
      simp only [List.cons_append, List.cons.injEq] at heq
      obtain ⟨hba, hrest⟩ := heq
      have hbs : '_' ∉ bs := fun hm => h (List.mem_cons_of_mem _ hm)
      have has : '_' ∉ as := fun hm => h' (List.mem_cons_of_mem _ hm)
      obtain ⟨h1, h2⟩ := ih as hbs has w w' hrest
      exact ⟨by rw [hba, h1], h2⟩

/-- Temporary file names are unique per (channel label, segment offset),
for labels that contain no underscores (as all four labels used by
`enhance` do). -/
lemma tempName_inj (c c' : List Char) (hc : '_' ∉ c) (hc' : '_' ∉ c')
    (i j : Nat) (h : tempName c i = tempName c' j) : c = c' ∧ i = j := by
  unfold tempName at h
  have hu : "_".toList = ['_'] := rfl
  rw [hu] at h
  simp only [List.append_assoc, List.cons_append, List.nil_append] at h
  have h1 := List.append_cancel_left h
  obtain ⟨hcc, hww⟩ := underscore_split c c' hc hc' _ _ h1
  refine ⟨hcc, natDecimal_inj (List.append_cancel_right hww)⟩

/-- Branch structure of `_find_produced_in_dir` in terms of list equality. -/
lemma findProducedInDir_eq (d : DirListing) :
    findProducedInDir d =
      if gatherAudioFiles d = [] then none
      else if (gatherAudioFiles d).filter markerMatch = [] then
        maxByMtime (gatherAudioFiles d)
      else maxByMtime ((gatherAudioFiles d).filter markerMatch) := by
  unfold findProducedInDir
  by_cases hfs : gatherAudioFiles d = []
  · simp [hfs]
  · by_cases hm : (gatherAudioFiles d).filter markerMatch = []
    · simp [hfs, hm]
    · simp [hfs, hm]

/-- C1: for every non-empty channel buffer and positive chunk size
`chunk = int(chunk_duration * sr)`, the segment loop of
`process_channel_data` produces exactly `⌈N / chunk⌉` segments (written
`(N + chunk - 1) / chunk` in natural-number arithmetic); their in-order
concatenation is the buffer itself, so there is no overlap, no reordering,
and the lengths sum to `N`; every segment except possibly the last has
length `chunk`; and the last segment's length is `N % chunk` unless that
is zero, in which case it is `chunk`. -/
theorem c1_segment_loop (data : List Int) (chunk : Nat)
    (hc : 0 < chunk) (hN : data ≠ []) :
    (chunkSegments chunk data).length = (data.length + chunk - 1) / chunk ∧
    (chunkSegments chunk data).flatten = data ∧
    (∀ s ∈ (chunkSegments chunk data).dropLast, s.length = chunk) ∧
    ∃ lastSeg, (chunkSegments chunk data).getLast? = some lastSeg ∧
      lastSeg.length = if data.length % chunk = 0 then chunk else data.length % chunk :=
  ⟨chunkSegments_length chunk hc data, chunkSegments_flatten chunk hc data,
    chunkSegments_dropLast chunk hc data, chunkSegments_getLast chunk hc data hN⟩

/-- Witness for C1 at the concrete buffer `[1,2,3,4,5]` with chunk size 2. -/
theorem c1_segment_loop_witness :
    (chunkSegments 2 [1, 2, 3, 4, 5]).length
      = (([1, 2, 3, 4, 5] : List Int).length + 2 - 1) / 2 ∧
    (chunkSegments 2 [1, 2, 3, 4, 5]).flatten = [1, 2, 3, 4, 5] ∧
    (∀ s ∈ (chunkSegments 2 ([1, 2, 3, 4, 5] : List Int)).dropLast, s.length = 2) ∧
    ∃ lastSeg, (chunkSegments 2 ([1, 2, 3, 4, 5] : List Int)).getLast? = some lastSeg ∧
      lastSeg.length =
        if ([1, 2, 3, 4, 5] : List Int).length % 2 = 0 then 2
        else ([1, 2, 3, 4, 5] : List Int).length % 2 :=
  c1_segment_loop [1, 2, 3, 4, 5] 2 (by decide) (by decide)

/-- C2: every per-segment result appended before stitching has length
exactly `int(len(chunk) / sr * 48000)` — the expected sample count at the
fixed 48 kHz target rate — whatever the length of the raw enhancement
result: a longer raw result is truncated to the expected length, a shorter
one is zero-padded up to it (both cases are the single `take ++ replicate`
equation). -/
theorem c2_result_length_coercion (res : List Int) (chunkLen sr : Nat) :
    (coerceLength res (expectedOutputSamples chunkLen sr)).length
      = expectedOutputSamples chunkLen sr ∧
    coerceLength res (expectedOutputSamples chunkLen sr)
      = res.take (expectedOutputSamples chunkLen sr)
        ++ List.replicate (expectedOutputSamples chunkLen sr - res.length) 0 :=
  ⟨coerceLength_length _ _, coerceLength_eq _ _⟩

/-- C3: stereo recombination truncates both enhanced channels to the
shorter length and interleaves them: the recombined buffer has exactly
`min len_left len_right` frames, its left components are precisely the
first `min` samples of the left channel and its right components the first
`min` samples of the right channel — every sample read lies inside its
buffer (each is drawn from a `take`), and a length mismatch is resolved by
this truncation rather than by an error (the function is total). -/
theorem c3_stereo_recombination (l r : List Int) :
    (recombineStereo l r).length = min l.length r.length ∧
    (recombineStereo l r).map Prod.fst = l.take (min l.length r.length) ∧
    (recombineStereo l r).map Prod.snd = r.take (min l.length r.length) := by
  refine ⟨?_, ?_, ?_⟩
  · show ((l.take (min l.length r.length)).zip (r.take (min l.length r.length))).length = _
    rw [List.length_zip, List.length_take, List.length_take]
    omega
  · apply List.map_fst_zip
    rw [List.length_take, List.length_take]
    omega
  · apply List.map_snd_zip
    rw [List.length_take, List.length_take]
    omega

/-- C8 counterexample: on an empty channel buffer the loop appends no
parts, and `np.concatenate([])` raises `ValueError("need at least one
array to concatenate")` — the call fails instead of returning an empty
result, contradicting the claim that the empty channel is tolerated. -/
theorem c8_empty_channel_counterexample :
    processChannelData id [] 240000 48000
      = Except.error "need at least one array to concatenate" := rfl

/-- C8 (amended): for `chunk ≥ N > 0` the loop produces a single segment
equal to the whole buffer and the call succeeds; for `N = 0` the loop
produces the empty sequence of segments, but the final `np.concatenate` of
zero parts raises, so the call fails rather than returning an empty
result. -/
theorem c8_tolerance_amended (data : List Int) (chunk sr : Nat)
    (enhanceFn : List Int → List Int) (hd : data ≠ []) (hle : data.length ≤ chunk) :
    chunkSegments chunk data = [data] ∧
    processChannelData enhanceFn data chunk sr
      = Except.ok (coerceLength (enhanceFn data) (expectedOutputSamples data.length sr)) ∧
    chunkSegments chunk ([] : List Int) = [] ∧
    processChannelData enhanceFn [] chunk sr
      = Except.error "need at least one array to concatenate" := by
  have hsingle := chunkSegments_single chunk data hd hle
  refine ⟨hsingle, ?_, rfl, rfl⟩
  unfold processChannelData
  rw [hsingle]
  simp [npConcatenate]

/-- Witness for C8 (amended) at the singleton buffer `[7]`, chunk size 3. -/
theorem c8_tolerance_amended_witness :
    chunkSegments 3 [7] = [[7]] ∧
    processChannelData id [7] 3 48000
      = Except.ok (coerceLength (id [7]) (expectedOutputSamples ([7] : List Int).length 48000)) ∧
    chunkSegments 3 ([] : List Int) = [] ∧
    processChannelData id [] 3 48000
      = Except.error "need at least one array to concatenate" :=
  c8_tolerance_amended [7] 3 48000 id (by decide) (by decide)

/-- C4 counterexample: when both ffmpeg split attempts fail (no exception,
both non-zero exit), `run_audiosr_cli` returns rc 1 having produced nothing
at the output path — even though copying the input would have succeeded
(`copyInputOk := true`) it is never attempted — refuting the claim that
every failure of the split step degrades to copying the input so that some
output file is produced on every execution path. -/
theorem c4_split_failure_counterexample :
    stereoFallback ⟨false, false, false, false, false, false, false, true, true, true⟩
      = (1, none) := rfl

/-- C4 (amended): in the stereo fallback, once the split step has succeeded
(and assuming the filesystem copy/move operations themselves succeed),
every failure of the merge step — non-zero exit, missing merged file, or
exception — degrades to copying the original input to the output path with
rc 1, and a successful merge moves the merged file there with rc 0, so some
output is produced on every such path; a split failure instead returns
rc 1 with no output file, and a per-channel enhancement failure is not an
error path at all (the raw split channel is merged). -/
theorem c4_stereo_fallback_amended (e : StereoEnv)
    (hexc : e.splitExc = false)
    (hsplit : e.split1Ok = true ∨ e.split2Ok = true)
    (hcopy : e.copyInputOk = true)
    (hmove : e.moveOk = true) :
    (stereoFallback e).2 ≠ none ∧
    ((e.mergeExc = true ∨ e.mergeOk = false) →
      stereoFallback e = (1, some OutContent.copyOfInput)) ∧
    (e.mergeExc = false → e.mergeOk = true →
      stereoFallback e = (0, some (OutContent.merged e.prodLeft e.prodRight))) := by
  rcases e with ⟨a, b, c, d, e5, f, g, h, i, j⟩
  subst hexc
  subst hcopy
  subst hmove
  rcases hsplit with h1 | h1 <;> subst h1 <;>
    cases f <;> cases g <;> simp [stereoFallback]

/-- Witness for C4 (amended): in the concrete environment the merge
succeeds and the merged stereo file lands at the output path. -/
theorem c4_stereo_fallback_amended_witness :
    stereoFallback c4WitnessEnv = (0, some (OutContent.merged true false)) :=
  (c4_stereo_fallback_amended c4WitnessEnv rfl (Or.inl rfl) rfl rfl).2.2 rfl rfl

/-- C5: in `_run_candidates_and_find`, a candidate whose subprocess exits
non-zero still counts as success when the expected output path exists
(returning rc 0 with that path) or when a plausible produced file is
located in the save directory (returning rc 0 with that file); only a
non-zero exit with neither leads to the next candidate, carrying the exit
code as `last_rc`. -/
theorem c5_candidate_iteration (out : String) (a : Attempt) (rest : List Attempt)
    (rc lastRc : Int) (hran : a.outcome = CmdOutcome.ran rc) (hnz : rc ≠ 0) :
    (a.outputExists = true →
      runCandidatesAux out (a :: rest) lastRc = (0, some out)) ∧
    (∀ f, a.outputExists = false → a.found = some f →
      runCandidatesAux out (a :: rest) lastRc = (0, some f)) ∧
    (a.outputExists = false → a.found = none →
      runCandidatesAux out (a :: rest) lastRc = runCandidatesAux out rest rc) := by
  rcases a with ⟨o, oe, fo⟩
  obtain rfl : o = CmdOutcome.ran rc := hran
  refine ⟨?_, ?_, ?_⟩
  · intro he
    obtain rfl : oe = true := he
    simp [runCandidatesAux, hnz]
  · intro f he hf
    obtain rfl : oe = false := he
    obtain rfl : fo = some f := hf
    simp [runCandidatesAux, hnz]
  · intro he hf
    obtain rfl : oe = false := he
    obtain rfl : fo = none := hf
    simp [runCandidatesAux, hnz]

/-- Witness for C5: a candidate that exits with code 3 but leaves a
locatable produced file is reported as success with that file. -/
theorem c5_candidate_iteration_witness :
    runCandidatesAux "out.wav" [⟨CmdOutcome.ran 3, false, some "f.wav"⟩] 1
      = (0, some "f.wav") :=
  (c5_candidate_iteration "out.wav" ⟨CmdOutcome.ran 3, false, some "f.wav"⟩ [] 3 1
    rfl (by decide)).2.1 "f.wav" rfl rfl

/-- C6: the output locator reports not-found exactly when there is no audio
file at all; whenever at least one audio file matches the name markers, a
marker-matching file is selected — the most recently modified among the
marker matches — regardless of the modification times of non-matching
files; only when no file matches does it fall back to the most recently
modified audio file. -/
theorem c6_output_locator (d : DirListing) :
    (findProducedInDir d = none ↔ gatherAudioFiles d = []) ∧
    ((gatherAudioFiles d).filter markerMatch ≠ [] →
      ∃ g, findProducedInDir d = some g ∧ markerMatch g = true ∧
        g ∈ gatherAudioFiles d ∧
        ∀ h ∈ (gatherAudioFiles d).filter markerMatch, h.mtime ≤ g.mtime) ∧
    ((gatherAudioFiles d).filter markerMatch = [] → gatherAudioFiles d ≠ [] →
      ∃ g, findProducedInDir d = some g ∧ g ∈ gatherAudioFiles d ∧
        ∀ h ∈ gatherAudioFiles d, h.mtime ≤ g.mtime) := by
  rw [findProducedInDir_eq d]
  by_cases hfs : gatherAudioFiles d = []
  · refine ⟨?_, ?_, ?_⟩
    · rw [if_pos hfs]
      exact ⟨fun _ => hfs, fun _ => rfl⟩
    · intro hm
      exfalso
      apply hm
      rw [hfs]
      rfl
    · intro _ hne
      exact absurd hfs hne
  · rw [if_neg hfs]
    by_cases hm : (gatherAudioFiles d).filter markerMatch = []
    · rw [if_pos hm]
      obtain ⟨g, hg, hmem, hmax⟩ := maxByMtime_spec _ hfs
      refine ⟨?_, fun h => absurd hm h, fun _ _ => ⟨g, hg, hmem, hmax⟩⟩
      rw [hg]
      exact ⟨fun h => absurd h (by simp), fun h => absurd h hfs⟩
    · rw [if_neg hm]
      obtain ⟨g, hg, hmem, hmax⟩ := maxByMtime_spec _ hm
      refine ⟨?_, ?_, fun h => absurd h hm⟩
      · rw [hg]
        exact ⟨fun h => absurd h (by simp), fun h => absurd h hfs⟩
      · intro _
        exact ⟨g, hg, (List.mem_filter.mp hmem).2, List.mem_of_mem_filter hmem, hmax⟩

/-- Witness for C6: in a directory whose marker-matching file is much older
than a non-matching file, the marker match is still selected. -/
theorem c6_output_locator_witness :
    ∃ g, findProducedInDir exDir = some g ∧ markerMatch g = true ∧
      g ∈ gatherAudioFiles exDir ∧
      ∀ h ∈ (gatherAudioFiles exDir).filter markerMatch, h.mtime ≤ g.mtime :=
  (c6_output_locator exDir).2.1 (by decide)

/-- C7: a parsed request with a missing or empty `input` or `output` field
is answered with rc 5 (`invalid request`) and the filesystem untouched, in
both the server (`_handle_conn`) and the wrapper (`handle_client`); every
reply is one structured response (rc, stdout, stderr); and rc 0 is returned
only on success — a valid request whose copy or enhancement step
succeeded. -/
theorem c7_invalid_request (alwaysCopy copyOk : Bool) (copyErrMsg : String)
    (run : Int × String × String) (copyEff runEff : FileSys → FileSys)
    (inp out : Option String) (fs : FileSys)
    (hbad : pyTruthy inp = false ∨ pyTruthy out = false) :
    handleConn alwaysCopy copyOk copyErrMsg run copyEff runEff
        (Except.ok (inp, out)) fs = (⟨5, "", "invalid request"⟩, fs) ∧
    wrapperHandleClient (Except.ok (inp, out)) fs
      = (⟨5, "", "invalid request"⟩, fs) ∧
    (∀ parsed fs₂,
      (handleConn alwaysCopy copyOk copyErrMsg run copyEff runEff parsed fs₂).1.rc = 0 →
      ∃ i o, parsed = Except.ok (i, o) ∧ pyTruthy i = true ∧ pyTruthy o = true ∧
        ((alwaysCopy = true ∧ copyOk = true) ∨ (alwaysCopy = false ∧ run.1 = 0))) := by
  have hcond : (pyTruthy inp && pyTruthy out) = false := by
    rcases hbad with h | h <;> simp [h]
  refine ⟨?_, ?_, ?_⟩
  · simp [handleConn, serverDispatch, hcond]
  · simp [wrapperHandleClient, hcond]
  · intro parsed fs₂ hrc
    cases parsed with
    | error msg =>
      exfalso
      simp [handleConn] at hrc
    | ok p =>
      rcases p with ⟨i, o⟩
      by_cases hio : (pyTruthy i && pyTruthy o) = true
      · obtain ⟨hi, ho⟩ : pyTruthy i = true ∧ pyTruthy o = true := by simpa using hio
        refine ⟨i, o, rfl, hi, ho, ?_⟩
        cases alwaysCopy with
        | true =>
          cases copyOk with
          | true => exact Or.inl ⟨rfl, rfl⟩
          | false =>
            exfalso
            simp [handleConn, serverDispatch, hio] at hrc
        | false =>
          refine Or.inr ⟨rfl, ?_⟩
          simpa [handleConn, serverDispatch, hio] using hrc
      · exfalso
        simp [handleConn, serverDispatch, Bool.eq_false_iff.mpr hio] at hrc

/-- Witness for C7: a request with an empty `input` field gets rc 5 without
touching the (empty) filesystem. -/
theorem c7_invalid_request_witness :
    handleConn false false "err" (1, "so", "se") id id
        (Except.ok (some "", some "b.wav")) [] = (⟨5, "", "invalid request"⟩, []) :=
  (c7_invalid_request false false "err" (1, "so", "se") id id
    (some "") (some "b.wav") [] (Or.inl (by decide))).1

/-- C9: each segment invocation writes the segment to a temporary file
whose name is determined injectively by the channel label and segment
offset (labels contain no underscore, as all four labels used by `enhance`
do); on both exit paths — normal completion and an exception from the
enhancement call — the event trace starts with memory reclamation, writes
the temporary file before the invocation, and ends by removing exactly
that temporary file and reclaiming memory again before the function
returns or the exception propagates. -/
theorem c9_temp_file_bracket (channel channel' : List Char) (i j : Nat) (raises : Bool)
    (hch : '_' ∉ channel) (hch' : '_' ∉ channel') :
    (∃ mid, (segmentStep channel i raises).1
        = SegEvent.reclaim :: SegEvent.writeTemp (tempName channel i) :: mid
          ++ [SegEvent.removeTemp (tempName channel i), SegEvent.reclaim]) ∧
    ((segmentStep channel i raises).2
      = if raises then Except.error () else Except.ok ()) ∧
    (tempName channel i = tempName channel' j → channel = channel' ∧ i = j) := by
  refine ⟨?_, ?_, tempName_inj channel channel' hch hch' i j⟩
  · cases raises
    · exact ⟨[SegEvent.invokeModel, SegEvent.appendResult], rfl⟩
    · exact ⟨[SegEvent.invokeModel], rfl⟩
  · cases raises <;> rfl

/-- Witness for C9 at channel labels `Links`/`Rechts`, offsets 0 and 1,
with the enhancement call raising. -/
theorem c9_temp_file_bracket_witness :
    (∃ mid, (segmentStep "Links".toList 0 true).1
        = SegEvent.reclaim :: SegEvent.writeTemp (tempName "Links".toList 0) :: mid
          ++ [SegEvent.removeTemp (tempName "Links".toList 0), SegEvent.reclaim]) ∧
    ((segmentStep "Links".toList 0 true).2
      = if true then Except.error () else Except.ok ()) ∧
    (tempName "Links".toList 0 = tempName "Rechts".toList 1 →
      "Links".toList = "Rechts".toList ∧ 0 = 1) :=
  c9_temp_file_bracket "Links".toList "Rechts".toList 0 1 true (by decide) (by decide)

/-- C10: in wrapper server mode every well-formed request (both fields
non-empty) receives exactly rc 9 with empty stdout and the fixed stderr
message, and the filesystem state is returned unchanged — `process_enhance`
performs no enhancement and no copy, for any arguments. -/
theorem c10_wrapper_disabled (inp out : String) (fs : FileSys)
    (h1 : inp ≠ "") (h2 : out ≠ "") :
    wrapperHandleClient (Except.ok (some inp, some out)) fs
      = (⟨9, "", "enhancement disabled: audiosr removed"⟩, fs) ∧
    (∀ i o, process_enhance i o = (9, "", "enhancement disabled: audiosr removed")) := by
  constructor
  · have hi : pyTruthy (some inp) = true := by
      simp [pyTruthy, h1]
    have ho : pyTruthy (some out) = true := by
      simp [pyTruthy, h2]
    simp [wrapperHandleClient, hi, ho, process_enhance]
  · intro i o
    rfl

/-- Witness for C10 at a concrete request. -/
theorem c10_wrapper_disabled_witness :
    wrapperHandleClient (Except.ok (some "a.wav", some "b.wav")) []
      = (⟨9, "", "enhancement disabled: audiosr removed"⟩, []) :=
  (c10_wrapper_disabled "a.wav" "b.wav" [] (by decide) (by decide)).1

end AudioEnhancer
